import Mathlib

/-!
Verification of the claudio bot server against its Python sources.

Strings from the Python code are modelled as `List Char`; Python float
arithmetic is modelled as exact real arithmetic (`ℝ`) where square roots,
logarithms and real exponents occur, and as exact rational/integer
arithmetic elsewhere.  Fallible operations return `Option`.
-/

namespace Claudio

/-- Whitespace test used by Python's `str.strip` and `str.split()`:
space, tab, LF, CR, vertical tab, form feed (ASCII range). -/
def pyIsSpace (c : Char) : Bool :=
  c == ' ' || c == '\t' || c == '\n' || c == '\r' ||
    c == Char.ofNat 11 || c == Char.ofNat 12

/-- Python `str.strip()`: drop whitespace from both ends. -/
def pyStrip (s : List Char) : List Char :=
  ((s.dropWhile pyIsSpace).reverse.dropWhile pyIsSpace).reverse

/-- Python `str.split()` with no separator: split on whitespace runs,
returning only the non-empty words.  `List.splitOnP` cuts at every
whitespace character; filtering the empty pieces yields exactly the
maximal non-whitespace runs. -/
def pyWords (s : List Char) : List (List Char) :=
  (s.splitOnP pyIsSpace).filter (fun w => !w.isEmpty)

/-- Python `str.startswith(p)` on `List Char`. -/
def pyStartsWith (p s : List Char) : Bool :=
  List.isPrefixOf p s

/-! ### util.strip_markdown, code-fence stage (src/lib/util.py)

The first stage of `strip_markdown` splits the text into lines and runs:

    for line in lines:
        if line.strip().startswith('```'):
            in_code = not in_code
            continue
        if not in_code:
            filtered.append(line)
-/

/-- A line that toggles code-block mode: `line.strip().startswith('```')`. -/
def isFenceLine (line : List Char) : Bool :=
  pyStartsWith ("```".toList) (pyStrip line)

/-- The code-fence filtering loop of `strip_markdown`, with the running
`in_code` flag made explicit. -/
def stripCodeBlocks : Bool → List (List Char) → List (List Char)
  | _, [] => []
  | inCode, l :: ls =>
    if isFenceLine l then stripCodeBlocks (!inCode) ls
    else if inCode then stripCodeBlocks inCode ls
    else l :: stripCodeBlocks inCode ls

/-- Number of fence lines in a list of lines. -/
def countFences (ls : List (List Char)) : Nat :=
  (ls.filter isFenceLine).length

/-! ### memory.should_consolidate (src/lib/memory.py)

    MIN_TURNS_FOR_CONSOLIDATION = 3
    MIN_WORDS_FOR_CONSOLIDATION = 20

    def should_consolidate(messages):
        if len(messages) < MIN_TURNS_FOR_CONSOLIDATION:
            return False
        user_messages = [m["content"] for m in messages if m["role"] == "user"]
        if all(len(msg.split()) < MIN_WORDS_FOR_CONSOLIDATION for msg in user_messages):
            if all(msg.strip().startswith("/") for msg in user_messages):
                return False
            return True
        return True
-/

def MIN_TURNS_FOR_CONSOLIDATION : Nat := 3

def MIN_WORDS_FOR_CONSOLIDATION : Nat := 20

/-- A chat message as consumed by consolidation: a role string and the
message text. -/
structure PyMsg where
  role : String
  content : List Char
deriving DecidableEq

/-- The contents of the user messages in a transcript. -/
def userMessages (messages : List PyMsg) : List (List Char) :=
  (messages.filter (fun m => m.role == "user")).map (fun m => m.content)

/-- Gating predicate for memory consolidation (memory.should_consolidate). -/
def should_consolidate (messages : List PyMsg) : Bool :=
  if messages.length < MIN_TURNS_FOR_CONSOLIDATION then false
  else
    let user_messages := userMessages messages
    if user_messages.all (fun msg => (pyWords msg).length < MIN_WORDS_FOR_CONSOLIDATION) then
      if user_messages.all (fun msg => pyStartsWith ("/".toList) (pyStrip msg)) then false
      else true
    else true

/-- Result of one `consolidate()` run: whether the LLM extractor was invoked,
and how many memories were handed to storage.  The database side effects of
`consolidate` (src/lib/memory.py) are reduced to these two observables; the
extractor is an oracle giving the number of memories the LLM would return. -/
def consolidate (messages : List PyMsg) (extractOracle : Nat) : Bool × Nat :=
  if messages.isEmpty then (false, 0)
  else if !should_consolidate messages then (false, 0)
  else (true, extractOracle)

/-! ### telegram_api.TelegramClient.download_file (src/lib/telegram_api.py)

    _MAX_FILE_SIZE = 20 * 1024 * 1024

The network interactions of `download_file` are captured by a record of
the observable responses: the `file_path` returned by `getFile` (with the
outcome of the `_FILE_PATH_RE` / `".."` check), and the downloaded body
(`none` models a network error).  The result records the returned boolean
and whether a file written by this call is left on disk (`os.unlink` on
the validation-failure path is modelled as succeeding).
-/

def MAX_FILE_SIZE : Nat := 20 * 1024 * 1024

structure TgFileEnv where
  /-- `file_path` from the `getFile` response, `none` when absent/empty. -/
  filePath : Option (List Char)
  /-- Outcome of `_FILE_PATH_RE.match(file_path) and ".." not in file_path`. -/
  filePathValid : Bool
  /-- The downloaded response body as bytes; `none` models a download error. -/
  body : Option (List UInt8)

structure DownloadOutcome where
  ok : Bool
  fileKept : Bool
deriving DecidableEq

def download_file (env : TgFileEnv) (validateFn : Option (List UInt8 → Bool)) :
    DownloadOutcome :=
  match env.filePath with
  | none => ⟨false, false⟩
  | some _ =>
    if !env.filePathValid then ⟨false, false⟩
    else
      match env.body with
      | none => ⟨false, false⟩
      | some data =>
        if data.length > MAX_FILE_SIZE then ⟨false, false⟩
        else if data.length == 0 then ⟨false, false⟩
        else
          match validateFn with
          | some v => if v data then ⟨true, true⟩ else ⟨false, false⟩
          | none => ⟨true, true⟩

/-! ### server.enqueue_webhook dedup (src/lib/server.py)

    seen_updates = OrderedDict()
    MAX_SEEN_UPDATES = 1000
    ...
    if update_id is not None:
        if update_id in seen_updates:
            return
        seen_updates[update_id] = True
        while len(seen_updates) > MAX_SEEN_UPDATES:
            seen_updates.popitem(last=False)

The `OrderedDict` (all values `True`) is modelled as its key list in
insertion order: membership test, append of a fresh key at the back,
`popitem(last=False)` pops at the front.  Enqueueing appends the body to
the per-key deque in `chat_queues`.
-/

def MAX_SEEN_UPDATES : Nat := 1000

/-- The `while len(seen_updates) > MAX_SEEN_UPDATES: popitem(last=False)`
loop: drop the oldest entries from the front until the bound holds. -/
def evictLoop (seen : List Nat) : List Nat :=
  if seen.length > MAX_SEEN_UPDATES then evictLoop seen.tail else seen
termination_by seen.length
decreasing_by
  cases seen with
  | nil => simp at *
  | cons a l => simp

structure ServerState where
  /-- Keys of `seen_updates` in insertion order (oldest first). -/
  seen : List Nat
  /-- `chat_queues`: queue_key to list of pending webhook bodies. -/
  queues : List (String × List String)

/-- Append a body to the deque of `key` in `chat_queues`
(`_enqueue_single`, queue-size limit aside). -/
def enqueueBody (key : String) (body : String) :
    List (String × List String) → List (String × List String)
  | [] => [(key, [body])]
  | (k, q) :: rest =>
    if k == key then (k, q ++ [body]) :: rest
    else (k, q) :: enqueueBody key body rest

/-- The dedup-then-enqueue fragment of `enqueue_webhook` for a message
carrying update id `uid` (shutdown and media-group buffering aside). -/
def enqueue_webhook (st : ServerState) (uid : Option Nat) (body : String)
    (key : String) : ServerState :=
  match uid with
  | none => { st with queues := enqueueBody key body st.queues }
  | some u =>
    if u ∈ st.seen then st
    else
      { seen := evictLoop (st.seen ++ [u]),
        queues := enqueueBody key body st.queues }

/-! ### config._env_quote and config.parse_env_file (src/lib/config.py)

    def _env_quote(val):
        val = val.replace('\\', '\\\\')
        val = val.replace('"', '\\"')
        val = val.replace('$', '\\$')
        val = val.replace('`', '\\`')
        val = val.replace('\n', '\\n')
        return val

`str.replace` with a single-character pattern maps each matching character
independently; with a two-character pattern it rewrites the leftmost
occurrences non-overlapping, scanning left to right.
-/

/-- The backtick character (written via its code point). -/
def backtick : Char := Char.ofNat 96

/-- Python `s.replace(t, rep)` for a single-character pattern `t`. -/
def pyReplaceChar (t : Char) (rep : List Char) (s : List Char) : List Char :=
  s.flatMap (fun c => if c = t then rep else [c])

/-- Python `s.replace('\\' + x, [r])`: rewrite the leftmost, non-overlapping
occurrences of the two-character pattern backslash-`x` to the single
character `r`, scanning left to right. -/
def pyReplacePair (x : Char) (r : Char) : List Char → List Char
  | [] => []
  | [c] => [c]
  | c1 :: c2 :: rest =>
    if c1 = '\\' ∧ c2 = x then r :: pyReplacePair x r rest
    else c1 :: pyReplacePair x r (c2 :: rest)

/-- config._env_quote: escape a value for the double-quoted env file
format, as the five sequential `str.replace` calls of the source. -/
def env_quote (v : List Char) : List Char :=
  pyReplaceChar '\n' ('\\' :: 'n' :: [])
    (pyReplaceChar backtick ('\\' :: backtick :: [])
      (pyReplaceChar '$' ('\\' :: '$' :: [])
        (pyReplaceChar '"' ('\\' :: '"' :: [])
          (pyReplaceChar '\\' ('\\' :: '\\' :: []) v))))

/-- The value-unescaping performed by `parse_env_file` on a quoted value,
as the five sequential `str.replace` calls of the source:

    val = val.replace('\\n', '\n')
    val = val.replace('\\`', '`')
    val = val.replace('\\$', '$')
    val = val.replace('\\"', '"')
    val = val.replace('\\\\', '\\')
-/
def env_unescape (val : List Char) : List Char :=
  pyReplacePair '\\' '\\'
    (pyReplacePair '"' '"'
      (pyReplacePair '$' '$'
        (pyReplacePair backtick backtick
          (pyReplacePair 'n' '\n' val))))

/-- First character class of `_ENV_KEY_RE = ^[A-Za-z_][A-Za-z0-9_]*$`. -/
def isKeyStart (c : Char) : Bool :=
  ('A' ≤ c && c ≤ 'Z') || ('a' ≤ c && c ≤ 'z') || c == '_'

/-- Continuation character class of `_ENV_KEY_RE`. -/
def isKeyChar (c : Char) : Bool :=
  isKeyStart c || ('0' ≤ c && c ≤ '9')

/-- `_ENV_KEY_RE.match(key)`: non-empty, `[A-Za-z_]` then `[A-Za-z0-9_]*`. -/
def keyOK : List Char → Bool
  | [] => false
  | c :: cs => isKeyStart c && cs.all isKeyChar

/-- Split text into lines at `\n`, `\r` and `\r\n`, mirroring Python's
universal-newline translation performed by text-mode file reading. -/
def splitLinesUniv : List Char → List (List Char)
  | [] => [[]]
  | '\r' :: '\n' :: rest => [] :: splitLinesUniv rest
  | '\r' :: rest => [] :: splitLinesUniv rest
  | '\n' :: rest => [] :: splitLinesUniv rest
  | c :: rest =>
    match splitLinesUniv rest with
    | [] => [[c]]
    | l :: ls => (c :: l) :: ls

/-- The lines yielded by `for line in f` over a file holding `s` (line
terminators already removed; Python yields no final empty line). -/
def pyLines (s : List Char) : List (List Char) :=
  let ps := splitLinesUniv s
  if ps.getLast? = some [] then ps.dropLast else ps

/-- Python `dict` assignment `d[k] = v` on an insertion-ordered
association list. -/
def dictSet (d : List (List Char × List Char)) (k v : List Char) :
    List (List Char × List Char) :=
  if d.any (fun p => p.1 == k) then
    d.map (fun p => if p.1 == k then (p.1, v) else p)
  else d ++ [(k, v)]

/-- Processing of one stripped-and-validated line of `parse_env_file`:
skip blanks, comments, lines without `=` past position 0, and invalid
keys; unquote and unescape a double-quoted value. -/
def parseEnvLine (acc : List (List Char × List Char)) (line : List Char) :
    List (List Char × List Char) :=
  let l := pyStrip line
  if l.isEmpty then acc
  else if pyStartsWith ('#' :: []) l then acc
  else
    match l.findIdx? (fun c => c == '=') with
    | none => acc
    | some eq =>
      if eq < 1 then acc
      else
        let key := l.take eq
        if !keyOK key then acc
        else
          let val := l.drop (eq + 1)
          let val' :=
            if val.length ≥ 2 ∧ val.head? = some '"' ∧ val.getLast? = some '"' then
              env_unescape ((val.drop 1).dropLast)
            else val
          dictSet acc key val'

/-- config.parse_env_file over the contents of the file. -/
def parse_env_file (content : List Char) : List (List Char × List Char) :=
  (pyLines content).foldl parseEnvLine []

/-- config.save_bot_env: write each field as `KEY="quoted"` plus newline. -/
def save_bot_env (fields : List (List Char × List Char)) : List Char :=
  fields.flatMap (fun p =>
    p.1 ++ ('=' :: '"' :: []) ++ env_quote p.2 ++ ('"' :: '\n' :: []))

/-- Does the value contain a backslash immediately followed by the letter
`n`?  Such values are exactly the ones corrupted by the sequential
unescaping of `parse_env_file`. -/
def hasBackslashN : List Char → Bool
  | [] => false
  | [_] => false
  | c1 :: c2 :: rest => (c1 == '\\' && c2 == 'n') || hasBackslashN (c2 :: rest)

/-- Per-character view of `_env_quote`: the escape of a single character. -/
def escChar (c : Char) : List Char :=
  if c = '\\' then '\\' :: '\\' :: []
  else if c = '"' then '\\' :: '"' :: []
  else if c = '$' then '\\' :: '$' :: []
  else if c = backtick then '\\' :: backtick :: []
  else if c = '\n' then '\\' :: 'n' :: []
  else [c]

/-- Chunk state after undoing the `\n` escape. -/
def esc1 (c : Char) : List Char :=
  if c = '\n' then ['\n'] else escChar c

/-- Chunk state after additionally undoing the backtick escape. -/
def esc2 (c : Char) : List Char :=
  if c = backtick then [backtick] else esc1 c

/-- Chunk state after additionally undoing the `$` escape. -/
def esc3 (c : Char) : List Char :=
  if c = '$' then ['$'] else esc2 c

/-- Chunk state after additionally undoing the `"` escape. -/
def esc4 (c : Char) : List Char :=
  if c = '"' then ['"'] else esc3 c

/-! ### memory retrieval and consolidation storage (src/lib/memory.py)

Python float arithmetic is modelled as exact real arithmetic.  The
module constants:

    W_SIM = 0.7
    W_ACT = 0.3
    DECAY_PARAM = 0.5
    NEAR_DUPLICATE_THRESHOLD = 0.92
    CONTRADICTION_CANDIDATE_THRESHOLD = 0.85
    REINFORCEMENT_GRACE_DAYS = 30
    CONFIDENCE_FLOOR = 0.1
-/

def W_SIM : ℝ := 0.7

def W_ACT : ℝ := 0.3

def NEAR_DUPLICATE_THRESHOLD : ℝ := 0.92

def CONTRADICTION_CANDIDATE_THRESHOLD : ℝ := 0.85

def REINFORCEMENT_GRACE_DAYS : ℤ := 30

def CONFIDENCE_FLOOR : ℝ := 0.1

def PRE_FILTER_PER_TYPE : Nat := 20

/-- memory.cosine_similarity:

    dot = sum(x * y for x, y in zip(a, b))
    norm_a = math.sqrt(sum(x * x for x in a))
    norm_b = math.sqrt(sum(x * x for x in b))
    if norm_a == 0 or norm_b == 0:
        return 0.0
    return dot / (norm_a * norm_b)
-/
noncomputable def cosine_similarity (a b : List ℝ) : ℝ :=
  let dot := (List.zipWith (fun x y => x * y) a b).sum
  let norm_a := Real.sqrt ((a.map (fun x => x * x)).sum)
  let norm_b := Real.sqrt ((b.map (fun x => x * x)).sum)
  if norm_a = 0 ∨ norm_b = 0 then 0 else dot / (norm_a * norm_b)

/-- memory.base_level_activation over the ages (in seconds) of the
memory's recorded accesses; `none` stands for the float `-inf` returned
when there are no accesses or the total underflows to 0. -/
noncomputable def base_level_activation (ages : List ℝ) : Option ℝ :=
  if ages.isEmpty then none
  else
    let total := (ages.map (fun d => (max d 1) ^ (-(0.5 : ℝ)))).sum
    if 0 < total then some (Real.log total) else none

/-- memory.normalize_activation: sigmoid, with `-inf` mapped to 0. -/
noncomputable def normalize_activation : Option ℝ → ℝ
  | none => 0
  | some a => 1 / (1 + Real.exp (-a))

/-- memory.reinforcement_decay as a function of the integer day count
`(now - last_access).days` and the stored confidence:

    if days_since < REINFORCEMENT_GRACE_DAYS:
        return confidence
    decay_factor = 0.95 ** ((days_since - REINFORCEMENT_GRACE_DAYS) / 30.0)
    return max(confidence * decay_factor, CONFIDENCE_FLOOR)
-/
noncomputable def reinforcement_decay (daysSince : ℤ) (confidence : ℝ) : ℝ :=
  if daysSince < REINFORCEMENT_GRACE_DAYS then confidence
  else max (confidence * (0.95 : ℝ) ^ (((daysSince : ℝ) - 30) / 30)) CONFIDENCE_FLOOR

/-- A database row as seen by `retrieve`: id, embedding (`none` for a NULL
or empty blob), confidence (semantic rows), the day count since the last
access (input to `reinforcement_decay`), and the ages of its recorded
accesses (input to `base_level_activation`). -/
structure MemRow where
  id : Nat
  embedding : Option (List ℝ)
  confidence : ℝ
  daysSinceAccess : ℤ
  accessAges : List ℝ

/-- Python truthiness of an optional vector (`None` and `[]` are falsy). -/
def vecTruthy : Option (List ℝ) → Bool
  | none => false
  | some q => !q.isEmpty

/-- Phase-1 similarity of a row: 0.0 unless both the query embedding and
the row embedding are truthy. -/
noncomputable def simOf (qe : Option (List ℝ)) (r : MemRow) : ℝ :=
  match qe, r.embedding with
  | some q, some e => if !q.isEmpty && !e.isEmpty then cosine_similarity q e else 0
  | _, _ => 0

/-- An entry of the candidate list built in phase 2 of `retrieve`. -/
structure RetEntry where
  id : Nat
  mtype : String
  score : ℝ
  similarity : ℝ
  activation : ℝ
  confidence : ℝ

/-- Descending order on phase-1 similarity:
`sim_scored.sort(key=lambda x: x[0], reverse=True)`. -/
def simDesc : (ℝ × MemRow) → (ℝ × MemRow) → Prop := fun p q => q.1 ≤ p.1

noncomputable instance : DecidableRel simDesc :=
  fun p q => inferInstanceAs (Decidable (q.1 ≤ p.1))

instance : IsTotal (ℝ × MemRow) simDesc := ⟨fun a b => le_total b.1 a.1⟩

instance : IsTrans (ℝ × MemRow) simDesc := ⟨fun _ _ _ h1 h2 => le_trans h2 h1⟩

/-- Descending order on the total score:
`candidates.sort(key=lambda x: x["score"], reverse=True)`. -/
def scoreDesc : RetEntry → RetEntry → Prop := fun a b => b.score ≤ a.score

noncomputable instance : DecidableRel scoreDesc :=
  fun a b => inferInstanceAs (Decidable (b.score ≤ a.score))

instance : IsTotal RetEntry scoreDesc := ⟨fun a b => le_total b.score a.score⟩

instance : IsTrans RetEntry scoreDesc := ⟨fun _ _ _ h1 h2 => le_trans h2 h1⟩

/-- Phase-2 processing of one pre-filtered candidate `(sim, row)`: apply
reinforcement decay for semantic rows (dropping the candidate if the
decayed confidence falls below the floor), compute the activation, and
build the scored entry. -/
noncomputable def phase2Entry (mtype : String) (p : ℝ × MemRow) : Option RetEntry :=
  let decayed := reinforcement_decay p.2.daysSinceAccess p.2.confidence
  if mtype = "semantic" ∧ decayed < CONFIDENCE_FLOOR then none
  else
    let normAct := normalize_activation (base_level_activation p.2.accessAges)
    some { id := p.2.id, mtype := mtype,
           score := W_SIM * p.1 + W_ACT * normAct,
           similarity := p.1, activation := normAct,
           confidence := if mtype = "semantic" then decayed else p.2.confidence }

/-- The per-type candidate pipeline of `retrieve`: phase-1 similarity
scores, sort descending by similarity, keep the top
`PRE_FILTER_PER_TYPE`, then phase-2 scoring. -/
noncomputable def retrieveType (qe : Option (List ℝ)) (mtype : String)
    (rows : List MemRow) : List RetEntry :=
  let sim_scored := rows.map (fun r => (simOf qe r, r))
  let top := (List.insertionSort simDesc sim_scored).take PRE_FILTER_PER_TYPE
  top.filterMap (phase2Entry mtype)

/-- memory.retrieve over a database snapshot (one row list per memory
type, in iteration order).  `fts` is the result of the `_fts_search`
fallback, consulted only when the query embedding is falsy and no
candidate was produced.  Returns the result list and the accesses
recorded by the final `for r in results: record_access(...)` loop. -/
noncomputable def retrieve (qe : Option (List ℝ))
    (snapshot : List (String × List MemRow)) (top_k : Nat)
    (fts : List RetEntry) : List RetEntry × List (Nat × String) :=
  let candidates := snapshot.flatMap (fun p => retrieveType qe p.1 p.2)
  let candidates2 := if !vecTruthy qe && candidates.isEmpty then fts else candidates
  let results := (List.insertionSort scoreDesc candidates2).take top_k
  (results, results.map (fun e => (e.id, e.mtype)))

/-- An existing row consulted by `_check_dedup` (embedding NOT NULL). -/
structure DbMem where
  id : Nat
  content : String
  embedding : List ℝ

/-- Result of `_check_dedup`. -/
inductive DedupAction
  | new
  | skip
  | supersede (old_id : Nat)
deriving DecidableEq

/-- The scan of `_check_dedup` over the existing rows (most recently
updated first); `verify` is the LLM oracle `_verify_relationship`. -/
noncomputable def check_dedupLoop (memory_type : String) (v : List ℝ)
    (verify : String → String → String) (content : String) :
    List DbMem → DedupAction
  | [] => .new
  | row :: rest =>
    let sim := cosine_similarity v row.embedding
    if NEAR_DUPLICATE_THRESHOLD < sim then .skip
    else if CONTRADICTION_CANDIDATE_THRESHOLD < sim ∧ memory_type = "semantic" then
      if verify row.content content = "DUPLICATE" then .skip
      else if verify row.content content = "CONTRADICTION" then .supersede row.id
      else check_dedupLoop memory_type v verify content rest
    else check_dedupLoop memory_type v verify content rest

/-- memory._check_dedup: `new` when the candidate has no embedding,
otherwise the row scan. -/
noncomputable def check_dedup (memory_type : String) (vec : Option (List ℝ))
    (verify : String → String → String) (content : String)
    (rows : List DbMem) : DedupAction :=
  match vec with
  | none => .new
  | some v => check_dedupLoop memory_type v verify content rows

/-- Number of rows inserted for one procedural candidate by
`_store_extracted` (skip inserts nothing; any other action stores). -/
noncomputable def store_procedural (rows : List DbMem)
    (verify : String → String → String) (content : String)
    (vec : Option (List ℝ)) : Nat :=
  if content = "" then 0
  else
    match check_dedup "procedural" vec verify content rows with
    | .skip => 0
    | _ => 1

/-- Number of rows inserted for one semantic candidate by
`_store_extracted` (skip inserts nothing; `new` and `supersede` both call
`store_memory`, inserting one row). -/
noncomputable def store_semantic (rows : List DbMem)
    (verify : String → String → String) (content : String)
    (vec : Option (List ℝ)) : Nat :=
  if content = "" then 0
  else
    match check_dedup "semantic" vec verify content rows with
    | .skip => 0
    | _ => 1

/-! ## Theorems -/

/-- The `in_code` flag after processing `xs`: flipped once per fence line. -/
def fenceFlip (b : Bool) (xs : List (List Char)) : Bool :=
  if countFences xs % 2 = 1 then !b else b

theorem countFences_nil : countFences [] = 0 := rfl

theorem countFences_cons (l : List Char) (ls : List (List Char)) :
    countFences (l :: ls) =
      (if isFenceLine l then 1 else 0) + countFences ls := by
  unfold countFences
  by_cases h : isFenceLine l
  · simp [h, List.filter_cons]
    omega
  · simp [h, List.filter_cons]

theorem countFences_append (xs ys : List (List Char)) :
    countFences (xs ++ ys) = countFences xs + countFences ys := by
  unfold countFences
  simp [List.filter_append]

theorem stripCodeBlocks_append (b : Bool) (xs ys : List (List Char)) :
    stripCodeBlocks b (xs ++ ys) =
      stripCodeBlocks b xs ++ stripCodeBlocks (fenceFlip b xs) ys := by
  induction xs generalizing b with
  | nil => simp [stripCodeBlocks, fenceFlip, countFences_nil]
  | cons l xs ih =>
    by_cases hf : isFenceLine l
    · have hflip : fenceFlip b (l :: xs) = fenceFlip (!b) xs := by
        unfold fenceFlip
        rw [countFences_cons, if_pos hf]
        rcases Nat.mod_two_eq_zero_or_one (countFences xs) with h | h <;>
          simp [Nat.add_mod, h, Nat.add_comm]
      simp only [List.cons_append, stripCodeBlocks, if_pos hf, hflip]
      exact ih (!b)
    · have hflip : fenceFlip b (l :: xs) = fenceFlip b xs := by
        unfold fenceFlip
        rw [countFences_cons, if_neg hf]
        simp
      cases b with
      | true =>
        simp only [List.cons_append, stripCodeBlocks, if_neg hf, if_pos rfl, hflip]
        exact ih true
      | false =>
        simp only [List.cons_append, stripCodeBlocks, if_neg hf, hflip]
        simp only [Bool.false_eq_true, if_false, List.cons_append, List.append_eq]
        rw [ih false]

theorem stripCodeBlocks_true_of_noFence (ls : List (List Char))
    (h : ∀ x ∈ ls, isFenceLine x = false) :
    stripCodeBlocks true ls = [] := by
  induction ls with
  | nil => rfl
  | cons l ls ih =>
    have hl : isFenceLine l = false := h l (List.mem_cons_self l ls)
    simp only [stripCodeBlocks, hl]
    simp only [Bool.false_eq_true, if_false, if_pos rfl]
    exact ih (fun x hx => h x (List.mem_cons_of_mem l hx))

/-- C10: in `strip_markdown`, each line whose stripped form starts with
three backticks toggles code-block mode and lines are dropped while the
mode is on; consequently, when the total number of fence lines is odd,
every line after the last fence line is removed: the filtered output of
the whole text equals the filtered output of the part before the last
fence. -/
theorem strip_markdown_unclosed_fence (l1 l2 : List (List Char)) (f : List Char)
    (hf : isFenceLine f = true)
    (hl2 : ∀ x ∈ l2, isFenceLine x = false)
    (hodd : countFences (l1 ++ f :: l2) % 2 = 1) :
    stripCodeBlocks false (l1 ++ f :: l2) = stripCodeBlocks false l1 := by
  have hcf2 : countFences l2 = 0 := by
    unfold countFences
    have hnil : List.filter isFenceLine l2 = [] :=
      List.filter_eq_nil_iff.mpr (fun a ha => by simp [hl2 a ha])
    rw [hnil]
    rfl
  have hcf : countFences (l1 ++ f :: l2) = countFences l1 + 1 := by
    rw [countFences_append, countFences_cons, if_pos hf, hcf2]
  have heven : countFences l1 % 2 = 0 := by omega
  have hsplit : l1 ++ f :: l2 = (l1 ++ [f]) ++ l2 := by simp
  rw [hsplit, stripCodeBlocks_append]
  have hflag : fenceFlip false (l1 ++ [f]) = true := by
    unfold fenceFlip
    rw [countFences_append, countFences_cons, if_pos hf, countFences_nil]
    rw [if_pos (by omega)]
    rfl
  rw [hflag, stripCodeBlocks_true_of_noFence l2 hl2, List.append_nil]
  rw [stripCodeBlocks_append]
  have hflag1 : fenceFlip false l1 = false := by
    unfold fenceFlip
    rw [if_neg (by omega)]
  rw [hflag1]
  simp [stripCodeBlocks, hf]

/-- Witness for C10 at a concrete input: a reply with one unclosed fence
loses the text after it. -/
theorem strip_markdown_unclosed_fence_witness :
    isFenceLine ("```".toList) = true ∧
    (∀ x ∈ (["world".toList] : List (List Char)), isFenceLine x = false) ∧
    countFences (([] : List (List Char)) ++ "```".toList :: ["world".toList]) % 2 = 1 ∧
    stripCodeBlocks false (([] : List (List Char)) ++ "```".toList :: ["world".toList]) =
      stripCodeBlocks false [] :=
  ⟨by decide, by decide, by decide,
    strip_markdown_unclosed_fence [] ["world".toList] ("```".toList)
      (by decide) (by decide) (by decide)⟩

/-- C7 (amended): `should_consolidate` returns False exactly when the
transcript has fewer than 3 messages, or when every user message is both
shorter than 20 words and a slash-command; a transcript whose user
messages are all slash-commands but where some user message reaches 20
words is consolidated.  When the gate returns False, `consolidate` calls
no LLM extraction and stores nothing. -/
theorem should_consolidate_gating (messages : List PyMsg) (n : Nat) :
    (should_consolidate messages = false ↔
      (messages.length < MIN_TURNS_FOR_CONSOLIDATION ∨
        ((userMessages messages).all
            (fun m => (pyWords m).length < MIN_WORDS_FOR_CONSOLIDATION) = true ∧
          (userMessages messages).all
            (fun m => pyStartsWith ("/".toList) (pyStrip m)) = true))) ∧
    (should_consolidate messages = false → consolidate messages n = (false, 0)) := by
  constructor
  · simp only [should_consolidate]
    split_ifs with h1 h2 h3
    · exact iff_of_true rfl (Or.inl h1)
    · exact iff_of_true rfl (Or.inr ⟨h2, h3⟩)
    · simp only [Bool.true_eq_false, false_iff]
      rintro (hc | ⟨_, hB⟩)
      · exact h1 hc
      · exact h3 hB
    · simp only [Bool.true_eq_false, false_iff]
      rintro (hc | ⟨hA, _⟩)
      · exact h1 hc
      · exact h2 hA
  · intro h
    unfold consolidate
    by_cases he : messages.isEmpty <;> simp [he, h]

/-- Counterexample for C7 as stated: three messages whose user messages
are all slash-commands, yet `should_consolidate` returns True because one
of them has 20 words. -/
theorem should_consolidate_slash_counterexample :
    (userMessages
          [⟨"user", ("/deploy one two three four five six seven eight nine ten eleven twelve thirteen fourteen fifteen sixteen seventeen eighteen nineteen").toList⟩,
            ⟨"assistant", ("ok").toList⟩,
            ⟨"user", ("/status").toList⟩]).all
        (fun m => pyStartsWith ("/".toList) (pyStrip m)) = true ∧
    (3 : Nat) ≤
      ([⟨"user", ("/deploy one two three four five six seven eight nine ten eleven twelve thirteen fourteen fifteen sixteen seventeen eighteen nineteen").toList⟩,
        ⟨"assistant", ("ok").toList⟩,
        ⟨"user", ("/status").toList⟩] : List PyMsg).length ∧
    should_consolidate
        [⟨"user", ("/deploy one two three four five six seven eight nine ten eleven twelve thirteen fourteen fifteen sixteen seventeen eighteen nineteen").toList⟩,
          ⟨"assistant", ("ok").toList⟩,
          ⟨"user", ("/status").toList⟩] = true := by
  refine ⟨by decide, by decide, by decide⟩

/-- Witness for C7 at a concrete input: a two-message transcript is below
the turn threshold, so the gate is closed and consolidate is a no-op. -/
theorem should_consolidate_gating_witness :
    should_consolidate [⟨"user", ("/a").toList⟩] = false ∧
    consolidate [⟨"user", ("/a").toList⟩] 5 = (false, 0) :=
  ⟨by decide, (should_consolidate_gating [⟨"user", ("/a").toList⟩] 5).2 (by decide)⟩

/-- C8: in `TelegramClient.download_file`, a response body larger than
20 MB or empty makes the call return False with no file kept, and a
supplied validator rejecting the written file makes the call delete the
file and return False. -/
theorem download_file_guards (env : TgFileEnv) (vOpt : Option (List UInt8 → Bool))
    (f : List UInt8 → Bool) (data : List UInt8)
    (hdata : env.body = some data) :
    ((data.length > MAX_FILE_SIZE ∨ data.length = 0) →
        download_file env vOpt = ⟨false, false⟩) ∧
    (vOpt = some f → f data = false →
        download_file env vOpt = ⟨false, false⟩) := by
  unfold download_file
  cases hfp : env.filePath with
  | none => exact ⟨fun _ => rfl, fun _ _ => rfl⟩
  | some fp =>
    by_cases hv : env.filePathValid
    · rw [hdata]
      simp only [hv, Bool.not_true, Bool.false_eq_true, if_false]
      constructor
      · rintro (hbig | hzero)
        · rw [if_pos hbig]
        · rw [hzero]
          norm_num [MAX_FILE_SIZE]
      · intro hvf hfd
        subst hvf
        by_cases hbig : data.length > MAX_FILE_SIZE
        · rw [if_pos hbig]
        · rw [if_neg hbig]
          by_cases hzero : data.length = 0
          · simp [hzero]
          · simp only [beq_iff_eq, hzero, if_false]
            rw [hfd]
            rfl
    · simp [hv]

/-- Witness for C8 at concrete inputs: an empty body is rejected, and a
one-byte body failing magic-byte validation is deleted and rejected. -/
theorem download_file_guards_witness :
    download_file ⟨some ("p".toList), true, some []⟩ none = ⟨false, false⟩ ∧
    download_file ⟨some ("p".toList), true, some [7]⟩ (some (fun _ => false)) =
      ⟨false, false⟩ :=
  ⟨(download_file_guards ⟨some ("p".toList), true, some []⟩ none (fun _ => true) []
      rfl).1 (Or.inr rfl),
    (download_file_guards ⟨some ("p".toList), true, some [7]⟩
      (some (fun _ => false)) (fun _ => false) [7] rfl).2 rfl rfl⟩

theorem evictLoop_eq_drop (l : List Nat) :
    evictLoop l = l.drop (l.length - MAX_SEEN_UPDATES) := by
  induction l with
  | nil =>
    rw [evictLoop]
    norm_num [MAX_SEEN_UPDATES]
  | cons a t ih =>
    rw [evictLoop]
    by_cases h : (a :: t).length > MAX_SEEN_UPDATES
    · rw [if_pos h]
      simp only [List.tail_cons]
      rw [ih]
      have hlen : (a :: t).length - MAX_SEEN_UPDATES =
          (t.length - MAX_SEEN_UPDATES) + 1 := by
        simp only [List.length_cons] at h ⊢
        omega
      rw [hlen, List.drop_succ_cons]
    · simp only [h, if_false]
      have hlen : (a :: t).length - MAX_SEEN_UPDATES = 0 := by
        simp only [List.length_cons] at h ⊢
        omega
      rw [hlen, List.drop_zero]

/-- C3: the dedup fragment of `enqueue_webhook`: a message whose update
id is already in `seen_updates` changes nothing (in particular enqueues
nothing); a processed update id is recorded in `seen_updates`, so an
immediate duplicate enqueues nothing and the pipeline runs at most once;
the seen set stays bounded by 1000; eviction removes the oldest entries
(a prefix in insertion order). -/
theorem webhook_dedup (st : ServerState) (u : Nat) (b b' k k' : String) :
    (u ∈ st.seen → enqueue_webhook st (some u) b k = st) ∧
    u ∈ (enqueue_webhook st (some u) b k).seen ∧
    (enqueue_webhook (enqueue_webhook st (some u) b k) (some u) b' k').queues =
      (enqueue_webhook st (some u) b k).queues ∧
    (enqueue_webhook st (some u) b k).seen.length ≤
      max st.seen.length MAX_SEEN_UPDATES ∧
    evictLoop st.seen = st.seen.drop (st.seen.length - MAX_SEEN_UPDATES) := by
  have hmem : ∀ s : ServerState, u ∈ s.seen →
      enqueue_webhook s (some u) b' k' = s := by
    intro s hs
    simp only [enqueue_webhook]
    rw [if_pos hs]
  have hmem1 : u ∈ (enqueue_webhook st (some u) b k).seen := by
    simp only [enqueue_webhook]
    by_cases hs : u ∈ st.seen
    · rw [if_pos hs]
      exact hs
    · rw [if_neg hs]
      simp only
      rw [evictLoop_eq_drop]
      have hle : (st.seen ++ [u]).length - MAX_SEEN_UPDATES ≤ st.seen.length := by
        simp [MAX_SEEN_UPDATES]
      rw [List.drop_append_of_le_length hle]
      exact List.mem_append_right _ (List.mem_singleton_self u)
  refine ⟨?_, hmem1, ?_, ?_, evictLoop_eq_drop st.seen⟩
  · intro hs
    simp only [enqueue_webhook]
    rw [if_pos hs]
  · rw [hmem _ hmem1]
  · simp only [enqueue_webhook]
    by_cases hs : u ∈ st.seen
    · rw [if_pos hs]
      exact le_max_left _ _
    · rw [if_neg hs]
      simp only
      rw [evictLoop_eq_drop, List.length_drop]
      simp only [List.length_append, List.length_cons, List.length_nil]
      omega

/-- Witness for C3 at concrete inputs: a duplicate of a seen update id is
a no-op, and a fresh id is recorded. -/
theorem webhook_dedup_witness :
    enqueue_webhook ⟨[7], []⟩ (some 7) "b" "k" = ⟨[7], []⟩ ∧
    7 ∈ (enqueue_webhook ⟨[], []⟩ (some 7) "b" "k").seen :=
  ⟨(webhook_dedup ⟨[7], []⟩ 7 "b" "b" "k" "k").1 (List.mem_singleton_self 7),
    (webhook_dedup ⟨[], []⟩ 7 "b" "b" "k" "k").2.1⟩

/-- C9: `cosine_similarity` is total; when either input vector has zero
norm (in particular the empty vector) the zero-norm guard fires and the
function returns exactly 0 instead of dividing by zero. -/
theorem cosine_similarity_zero_norm (a b : List ℝ)
    (h : (a.map (fun x => x * x)).sum = 0 ∨ (b.map (fun x => x * x)).sum = 0) :
    cosine_similarity a b = 0 := by
  unfold cosine_similarity
  rcases h with h | h <;> simp [h]

/-- Witness for C9 at a concrete input: the empty query vector. -/
theorem cosine_similarity_zero_norm_witness :
    cosine_similarity ([] : List ℝ) [1] = 0 :=
  cosine_similarity_zero_norm [] [1] (Or.inl (by simp))

/-- C5 (amended): for a confidence at least the 0.1 floor,
`reinforcement_decay` never goes below the floor and never increases the
confidence; and every semantic entry surviving phase 2 of `retrieve` has
decayed confidence at least the floor (the below-floor candidates are
dropped). -/
theorem reinforcement_decay_bounds (d : ℤ) (conf : ℝ) (qe : Option (List ℝ))
    (rows : List MemRow) (e : RetEntry)
    (hconf : CONFIDENCE_FLOOR ≤ conf) :
    (CONFIDENCE_FLOOR ≤ reinforcement_decay d conf ∧
      reinforcement_decay d conf ≤ conf) ∧
    (e ∈ retrieveType qe "semantic" rows → CONFIDENCE_FLOOR ≤ e.confidence) := by
  constructor
  · unfold reinforcement_decay
    by_cases hd : d < REINFORCEMENT_GRACE_DAYS
    · rw [if_pos hd]
      exact ⟨hconf, le_refl conf⟩
    · rw [if_neg hd]
      refine ⟨le_max_right _ _, max_le ?_ hconf⟩
      have hx : (0 : ℝ) ≤ ((d : ℝ) - 30) / 30 := by
        have h30 : (30 : ℝ) ≤ (d : ℝ) := by
          have : (30 : ℤ) ≤ d := by
            unfold REINFORCEMENT_GRACE_DAYS at hd
            omega
          exact_mod_cast this
        have : (0 : ℝ) ≤ (d : ℝ) - 30 := by linarith
        exact div_nonneg this (by norm_num)
      have hf1 : (0.95 : ℝ) ^ (((d : ℝ) - 30) / 30) ≤ 1 :=
        Real.rpow_le_one (by norm_num) (by norm_num) hx
      have hc0 : (0 : ℝ) ≤ conf := le_trans (by norm_num [CONFIDENCE_FLOOR]) hconf
      calc conf * (0.95 : ℝ) ^ (((d : ℝ) - 30) / 30) ≤ conf * 1 :=
            mul_le_mul_of_nonneg_left hf1 hc0
        _ = conf := mul_one conf
  · intro he
    unfold retrieveType at he
    rcases List.mem_filterMap.mp he with ⟨p, _, hpe⟩
    unfold phase2Entry at hpe
    by_cases hdrop :
        reinforcement_decay p.2.daysSinceAccess p.2.confidence < CONFIDENCE_FLOOR
    · rw [if_pos ⟨rfl, hdrop⟩] at hpe
      exact absurd hpe (by simp)
    · rw [if_neg (by
        rintro ⟨-, hlt⟩
        exact hdrop hlt)] at hpe
      have hc : e.confidence =
          reinforcement_decay p.2.daysSinceAccess p.2.confidence := by
        rw [← Option.some_inj.mp hpe]
        simp
      rw [hc]
      exact not_lt.mp hdrop

/-- Witness for C5 at concrete inputs: confidence 1/2, 60 days since the
last access; and a concrete semantic row surviving retrieval. -/
theorem reinforcement_decay_bounds_witness :
    (CONFIDENCE_FLOOR ≤ reinforcement_decay 60 (1 / 2) ∧
      reinforcement_decay 60 (1 / 2) ≤ 1 / 2) ∧
    (∃ e ∈ retrieveType none "semantic" [⟨1, none, 4 / 5, 0, []⟩],
      CONFIDENCE_FLOOR ≤ e.confidence) := by
  have hmain := fun e =>
    reinforcement_decay_bounds 60 (1 / 2) none [⟨1, none, 4 / 5, 0, []⟩] e
      (by norm_num [CONFIDENCE_FLOOR])
  have hnlt : ¬(reinforcement_decay (0 : ℤ) (4 / 5 : ℝ) < CONFIDENCE_FLOOR) := by
    unfold reinforcement_decay REINFORCEMENT_GRACE_DAYS CONFIDENCE_FLOOR
    rw [if_pos (by norm_num)]
    norm_num
  have hnil : retrieveType none "semantic" [⟨1, none, 4 / 5, 0, []⟩] ≠ [] := by
    unfold retrieveType
    simp [simOf, PRE_FILTER_PER_TYPE, phase2Entry, hnlt]
  have hne : ∃ e, e ∈ retrieveType none "semantic" [⟨1, none, 4 / 5, 0, []⟩] :=
    List.exists_mem_of_ne_nil _ hnil
  rcases hne with ⟨e, he⟩
  exact ⟨(hmain e).1, ⟨e, he, (hmain e).2 he⟩⟩

/-- Counterexample for C5 as stated: a confidence below the floor is
raised to the floor by the decay branch, so the decayed value exceeds the
input confidence. -/
theorem reinforcement_decay_increases_low_confidence :
    reinforcement_decay 60 (1 / 20) = CONFIDENCE_FLOOR ∧
    (1 / 20 : ℝ) < CONFIDENCE_FLOOR := by
  constructor
  · unfold reinforcement_decay
    rw [if_neg (by norm_num [REINFORCEMENT_GRACE_DAYS])]
    have hx : (((60 : ℤ) : ℝ) - 30) / 30 = 1 := by norm_num
    rw [hx, Real.rpow_one]
    rw [max_eq_right (by norm_num [CONFIDENCE_FLOOR])]
  · norm_num [CONFIDENCE_FLOOR]

theorem check_dedupLoop_skip_of (mt : String) (v : List ℝ)
    (verify : String → String → String) (content : String) :
    ∀ rows : List DbMem,
      (∃ r ∈ rows, NEAR_DUPLICATE_THRESHOLD < cosine_similarity v r.embedding) →
      (∀ r ∈ rows, verify r.content content = "CONTRADICTION" →
        NEAR_DUPLICATE_THRESHOLD < cosine_similarity v r.embedding) →
      check_dedupLoop mt v verify content rows = .skip := by
  intro rows
  induction rows with
  | nil =>
    rintro ⟨r, hr, -⟩ -
    exact absurd hr (List.not_mem_nil r)
  | cons row rest ih =>
    rintro ⟨r, hr, hsim⟩ hnc
    simp only [check_dedupLoop]
    by_cases h1 : NEAR_DUPLICATE_THRESHOLD < cosine_similarity v row.embedding
    · rw [if_pos h1]
    · rw [if_neg h1]
      have hrest : ∃ r ∈ rest,
          NEAR_DUPLICATE_THRESHOLD < cosine_similarity v r.embedding := by
        rcases List.mem_cons.mp hr with rfl | hr'
        · exact absurd hsim h1
        · exact ⟨r, hr', hsim⟩
      have hncr : ∀ r ∈ rest, verify r.content content = "CONTRADICTION" →
          NEAR_DUPLICATE_THRESHOLD < cosine_similarity v r.embedding :=
        fun r h => hnc r (List.mem_cons_of_mem row h)
      by_cases h2 : CONTRADICTION_CANDIDATE_THRESHOLD <
          cosine_similarity v row.embedding ∧ mt = "semantic"
      · rw [if_pos h2]
        by_cases hdup : verify row.content content = "DUPLICATE"
        · rw [if_pos hdup]
        · rw [if_neg hdup]
          by_cases hcon : verify row.content content = "CONTRADICTION"
          · exact absurd (hnc row (List.mem_cons_self row rest) hcon) h1
          · rw [if_neg hcon]
            exact ih hrest hncr
      · rw [if_neg h2]
        exact ih hrest hncr

/-- C6 (amended): when some existing same-kind memory has cosine
similarity strictly greater than 0.92 to the candidate and no existing
memory in the contradiction band is classified CONTRADICTION by the LLM,
`_check_dedup` returns skip and neither the procedural nor the semantic
store path inserts a row. -/
theorem dedup_skip_above_threshold (memory_type : String) (v : List ℝ)
    (verify : String → String → String) (content : String) (rows : List DbMem)
    (hhigh : ∃ r ∈ rows, NEAR_DUPLICATE_THRESHOLD < cosine_similarity v r.embedding)
    (hnc : ∀ r ∈ rows, verify r.content content = "CONTRADICTION" →
      NEAR_DUPLICATE_THRESHOLD < cosine_similarity v r.embedding) :
    check_dedup memory_type (some v) verify content rows = .skip ∧
    store_procedural rows verify content (some v) = 0 ∧
    store_semantic rows verify content (some v) = 0 := by
  have hskip : ∀ mt, check_dedup mt (some v) verify content rows = .skip := by
    intro mt
    simp only [check_dedup]
    exact check_dedupLoop_skip_of mt v verify content rows hhigh hnc
  refine ⟨hskip memory_type, ?_, ?_⟩
  · unfold store_procedural
    by_cases hc : content = ""
    · rw [if_pos hc]
    · rw [if_neg hc, hskip "procedural"]
  · unfold store_semantic
    by_cases hc : content = ""
    · rw [if_pos hc]
    · rw [if_neg hc, hskip "semantic"]

/-- Counterexample for C6 as stated: the rational vectors (3,4,5) and
(5,4,3) have cosine similarity exactly 0.92, and a procedural candidate
at exactly the threshold is stored — one row is inserted. -/
theorem near_duplicate_at_exact_threshold :
    cosine_similarity [3, 4, 5] [5, 4, 3] = NEAR_DUPLICATE_THRESHOLD ∧
    store_procedural [⟨1, "old", [5, 4, 3]⟩] (fun _ _ => "UNRELATED") "cand"
      (some [3, 4, 5]) = 1 := by
  have hcos : cosine_similarity [3, 4, 5] [5, 4, 3] = 23 / 25 := by
    unfold cosine_similarity
    have hs : (([3, 4, 5] : List ℝ).map (fun x => x * x)).sum = 50 := by
      norm_num [List.map]
    have hs2 : (([5, 4, 3] : List ℝ).map (fun x => x * x)).sum = 50 := by
      norm_num [List.map]
    have hd : (List.zipWith (fun x y => x * y)
        ([3, 4, 5] : List ℝ) [5, 4, 3]).sum = 46 := by
      norm_num [List.zipWith]
    rw [hs, hs2, hd]
    have hpos : (0 : ℝ) < Real.sqrt 50 := Real.sqrt_pos.mpr (by norm_num)
    rw [if_neg (by push_neg; constructor <;> positivity)]
    rw [Real.mul_self_sqrt (by norm_num)]
    norm_num
  constructor
  · rw [hcos]
    norm_num [NEAR_DUPLICATE_THRESHOLD]
  · unfold store_procedural
    rw [if_neg (by decide)]
    simp only [check_dedup, check_dedupLoop]
    rw [hcos]
    rw [if_neg (by norm_num [NEAR_DUPLICATE_THRESHOLD])]
    rw [if_neg (by
      rintro ⟨-, h⟩
      exact absurd h (by decide))]

/-- Witness for C6 at concrete inputs: an existing row with cosine 1 to
the candidate makes the dedup skip, and nothing is stored. -/
theorem dedup_skip_above_threshold_witness :
    NEAR_DUPLICATE_THRESHOLD < cosine_similarity [3, 4, 5] [3, 4, 5] ∧
    check_dedup "procedural" (some [3, 4, 5]) (fun _ _ => "UNRELATED") "cand"
      [⟨1, "old", [3, 4, 5]⟩] = .skip ∧
    store_procedural [⟨1, "old", [3, 4, 5]⟩] (fun _ _ => "UNRELATED") "cand"
      (some [3, 4, 5]) = 0 := by
  have hcos : cosine_similarity [3, 4, 5] [3, 4, 5] = 1 := by
    unfold cosine_similarity
    have hs : (([3, 4, 5] : List ℝ).map (fun x => x * x)).sum = 50 := by
      norm_num [List.map]
    have hd : (List.zipWith (fun x y => x * y)
        ([3, 4, 5] : List ℝ) [3, 4, 5]).sum = 50 := by
      norm_num [List.zipWith]
    rw [hs, hd]
    rw [if_neg (by push_neg; constructor <;> positivity)]
    rw [Real.mul_self_sqrt (by norm_num)]
    norm_num
  have hlt : NEAR_DUPLICATE_THRESHOLD < cosine_similarity [3, 4, 5] [3, 4, 5] := by
    rw [hcos]
    norm_num [NEAR_DUPLICATE_THRESHOLD]
  have h := dedup_skip_above_threshold "procedural" [3, 4, 5]
    (fun _ _ => "UNRELATED") "cand" [⟨1, "old", [3, 4, 5]⟩]
    ⟨⟨1, "old", [3, 4, 5]⟩, List.mem_singleton_self _, hlt⟩
    (fun r hr hcon =>
      absurd (show ("UNRELATED" : String) = "CONTRADICTION" from hcon) (by decide))
  exact ⟨hlt, h.1, h.2.1⟩

/-- C4: every candidate produced by the embedding pipeline of `retrieve`
carries the score 0.7·similarity + 0.3·normalised-activation; the result
list is sorted descending by score, has at most `top_k` entries, and one
access is recorded per returned entry. -/
theorem retrieve_scoring (qe : Option (List ℝ))
    (snapshot : List (String × List MemRow)) (top_k : Nat)
    (fts : List RetEntry) :
    (∀ e ∈ snapshot.flatMap (fun p => retrieveType qe p.1 p.2),
        e.score = W_SIM * e.similarity + W_ACT * e.activation) ∧
    List.Sorted scoreDesc (retrieve qe snapshot top_k fts).1 ∧
    (retrieve qe snapshot top_k fts).1.length ≤ top_k ∧
    (retrieve qe snapshot top_k fts).2 =
      (retrieve qe snapshot top_k fts).1.map (fun e => (e.id, e.mtype)) := by
  refine ⟨?_, ?_, ?_, rfl⟩
  · intro e he
    rcases List.mem_flatMap.mp he with ⟨p, -, hep⟩
    unfold retrieveType at hep
    rcases List.mem_filterMap.mp hep with ⟨q, -, hq⟩
    unfold phase2Entry at hq
    by_cases hcond : p.1 = "semantic" ∧
        reinforcement_decay q.2.daysSinceAccess q.2.confidence < CONFIDENCE_FLOOR
    · rw [if_pos hcond] at hq
      exact absurd hq (by simp)
    · rw [if_neg hcond] at hq
      rw [← Option.some_inj.mp hq]
  · unfold retrieve
    exact List.Pairwise.sublist (List.take_sublist _ _)
      (List.sorted_insertionSort scoreDesc _)
  · unfold retrieve
    simp only
    rw [List.length_take]
    exact min_le_left _ _

theorem pyReplacePair_cons_of_ne (x r c : Char) (s : List Char) (hc : c ≠ '\\') :
    pyReplacePair x r (c :: s) = c :: pyReplacePair x r s := by
  cases s with
  | nil => rfl
  | cons d t =>
    simp only [pyReplacePair]
    rw [if_neg (by rintro ⟨h1, -⟩; exact hc h1)]

theorem pyReplacePair_escape (x r : Char) (s : List Char) :
    pyReplacePair x r ('\\' :: x :: s) = r :: pyReplacePair x r s := by
  simp only [pyReplacePair]
  rw [if_pos (by constructor <;> trivial)]

theorem pyReplacePair_esc_other (x r e : Char) (s : List Char)
    (he : e ≠ x) (he2 : e ≠ '\\') :
    pyReplacePair x r ('\\' :: e :: s) = '\\' :: e :: pyReplacePair x r s := by
  simp only [pyReplacePair]
  rw [if_neg (by rintro ⟨-, h2⟩; exact he h2)]
  rw [pyReplacePair_cons_of_ne x r e s he2]

theorem pyReplacePair_bsbs (x r : Char) (s : List Char)
    (hx : x ≠ '\\') (hh : s.head? ≠ some x) :
    pyReplacePair x r ('\\' :: '\\' :: s) = '\\' :: '\\' :: pyReplacePair x r s := by
  simp only [pyReplacePair]
  rw [if_neg (by rintro ⟨-, h2⟩; exact hx h2.symm)]
  cases s with
  | nil => rfl
  | cons d t =>
    have hd : d ≠ x := by
      intro hdx
      exact hh (by rw [hdx]; rfl)
    simp only [pyReplacePair]
    rw [if_neg (by rintro ⟨-, h2⟩; exact hd h2)]

theorem flatMap_head_ne (g : Char → List Char) (x : Char)
    (hg : ∀ c, (g c).head? ≠ some x) :
    ∀ v : List Char, (v.flatMap g).head? ≠ some x := by
  intro v
  induction v with
  | nil => simp
  | cons c v ih =>
    cases hgc : g c with
    | nil => simpa [List.flatMap_cons, hgc] using ih
    | cons d t =>
      have hne := hg c
      rw [hgc] at hne
      simpa [List.flatMap_cons, hgc] using hne

theorem pyReplacePair_flatMap (x : Char) (g h : Char → List Char)
    (hx : x ≠ '\\')
    (hhead : ∀ c, (g c).head? ≠ some x)
    (hcase : ∀ c, (g c = ['\\', x] ∧ h c = [x]) ∨
      (h c = g c ∧ ((∃ e, g c = ['\\', e] ∧ e ≠ x) ∨ (∃ a, g c = [a] ∧ a ≠ '\\')))) :
    ∀ v : List Char, pyReplacePair x x (v.flatMap g) = v.flatMap h := by
  intro v
  induction v with
  | nil => rfl
  | cons c v ih =>
    rw [List.flatMap_cons, List.flatMap_cons]
    rcases hcase c with ⟨hg, hh⟩ | ⟨hh, ⟨e, hg, he⟩ | ⟨a, hg, ha⟩⟩
    · rw [hg, hh]
      show pyReplacePair x x ('\\' :: x :: v.flatMap g) = [x] ++ v.flatMap h
      rw [pyReplacePair_escape, ih]
      rfl
    · rw [hg, hh, hg]
      by_cases hebs : e = '\\'
      · subst hebs
        show pyReplacePair x x ('\\' :: '\\' :: v.flatMap g) = ['\\', '\\'] ++ v.flatMap h
        rw [pyReplacePair_bsbs x x _ hx (flatMap_head_ne g x hhead v), ih]
        rfl
      · show pyReplacePair x x ('\\' :: e :: v.flatMap g) = ['\\', e] ++ v.flatMap h
        rw [pyReplacePair_esc_other x x e _ he hebs, ih]
        rfl
    · rw [hg, hh, hg]
      show pyReplacePair x x (a :: v.flatMap g) = [a] ++ v.flatMap h
      rw [pyReplacePair_cons_of_ne x x a _ ha, ih]
      rfl

theorem pyReplacePair_flatMap_backslash (g h : Char → List Char)
    (hcase : ∀ c, (g c = ['\\', '\\'] ∧ h c = ['\\']) ∨
      (h c = g c ∧ ∃ a, g c = [a] ∧ a ≠ '\\')) :
    ∀ v : List Char, pyReplacePair '\\' '\\' (v.flatMap g) = v.flatMap h := by
  intro v
  induction v with
  | nil => rfl
  | cons c v ih =>
    rw [List.flatMap_cons, List.flatMap_cons]
    rcases hcase c with ⟨hg, hh⟩ | ⟨hh, a, hg, ha⟩
    · rw [hg, hh]
      show pyReplacePair '\\' '\\' ('\\' :: '\\' :: v.flatMap g) = ['\\'] ++ v.flatMap h
      rw [pyReplacePair_escape, ih]
      rfl
    · rw [hg, hh, hg]
      show pyReplacePair '\\' '\\' (a :: v.flatMap g) = [a] ++ v.flatMap h
      rw [pyReplacePair_cons_of_ne '\\' '\\' a _ ha, ih]
      rfl

theorem head_ne_of_cons (a b : Char) (rest : List Char) (h : a ≠ b) :
    (a :: rest).head? ≠ some b := by
  simp [h]

theorem escChar_cases (c : Char) :
    (c = '\\' ∧ escChar c = ['\\', '\\']) ∨
    (c = '"' ∧ escChar c = ['\\', '"']) ∨
    (c = '$' ∧ escChar c = ['\\', '$']) ∨
    (c = backtick ∧ escChar c = ['\\', backtick]) ∨
    (c = '\n' ∧ escChar c = ['\\', 'n']) ∨
    (c ≠ '\\' ∧ c ≠ '"' ∧ c ≠ '$' ∧ c ≠ backtick ∧ c ≠ '\n' ∧ escChar c = [c]) := by
  unfold escChar
  split_ifs with h1 h2 h3 h4 h5
  · exact Or.inl ⟨h1, rfl⟩
  · exact Or.inr (Or.inl ⟨h2, rfl⟩)
  · exact Or.inr (Or.inr (Or.inl ⟨h3, rfl⟩))
  · exact Or.inr (Or.inr (Or.inr (Or.inl ⟨h4, rfl⟩)))
  · exact Or.inr (Or.inr (Or.inr (Or.inr (Or.inl ⟨h5, rfl⟩))))
  · exact Or.inr (Or.inr (Or.inr (Or.inr (Or.inr ⟨h1, h2, h3, h4, h5, rfl⟩))))

theorem pyReplaceChar_append (t : Char) (rep a b : List Char) :
    pyReplaceChar t rep (a ++ b) =
      pyReplaceChar t rep a ++ pyReplaceChar t rep b := by
  unfold pyReplaceChar
  rw [List.flatMap_append]

theorem env_quote_cons (c : Char) (v : List Char) :
    env_quote (c :: v) = env_quote [c] ++ env_quote v := by
  unfold env_quote
  rw [show (c :: v) = [c] ++ v from rfl]
  rw [pyReplaceChar_append, pyReplaceChar_append, pyReplaceChar_append,
    pyReplaceChar_append, pyReplaceChar_append]

theorem env_quote_single (c : Char) : env_quote [c] = escChar c := by
  rcases escChar_cases c with ⟨h, he⟩ | ⟨h, he⟩ | ⟨h, he⟩ | ⟨h, he⟩ | ⟨h, he⟩ |
    ⟨h1, h2, h3, h4, h5, he⟩
  · subst h
    decide
  · subst h
    decide
  · subst h
    decide
  · rw [h]
    decide
  · subst h
    decide
  · rw [he]
    unfold env_quote pyReplaceChar
    simp [h1, h2, h3, h4, h5]

theorem env_quote_eq_flatMap (v : List Char) :
    env_quote v = v.flatMap escChar := by
  induction v with
  | nil => rfl
  | cons c v ih =>
    rw [env_quote_cons, env_quote_single, ih, List.flatMap_cons]

theorem stage1_unescape_n (v : List Char) (hbn : hasBackslashN v = false) :
    pyReplacePair 'n' '\n' (v.flatMap escChar) = v.flatMap esc1 := by
  induction v with
  | nil => rfl
  | cons c v ih =>
    have hbn' : hasBackslashN v = false := by
      cases v with
      | nil => rfl
      | cons d t =>
        simp only [hasBackslashN, Bool.or_eq_false_iff] at hbn
        exact hbn.2
    rw [List.flatMap_cons, List.flatMap_cons]
    rcases escChar_cases c with ⟨h, he⟩ | ⟨h, he⟩ | ⟨h, he⟩ | ⟨h, he⟩ | ⟨h, he⟩ |
      ⟨h1, h2, h3, h4, h5, he⟩
    · -- escaped backslash chunk; the next chunk cannot start with 'n'
      subst h
      have hhead : (v.flatMap escChar).head? ≠ some 'n' := by
        cases v with
        | nil => simp
        | cons d t =>
          have hd : d ≠ 'n' := by
            intro hdn
            subst hdn
            simp only [hasBackslashN] at hbn
            simp at hbn
          rw [List.flatMap_cons]
          rcases escChar_cases d with ⟨-, hd2⟩ | ⟨-, hd2⟩ | ⟨-, hd2⟩ | ⟨-, hd2⟩ |
            ⟨-, hd2⟩ | ⟨-, -, -, -, -, hd2⟩
          · rw [hd2]
            exact head_ne_of_cons '\\' 'n' _ (by decide)
          · rw [hd2]
            exact head_ne_of_cons '\\' 'n' _ (by decide)
          · rw [hd2]
            exact head_ne_of_cons '\\' 'n' _ (by decide)
          · rw [hd2]
            exact head_ne_of_cons '\\' 'n' _ (by decide)
          · rw [hd2]
            exact head_ne_of_cons '\\' 'n' _ (by decide)
          · rw [hd2]
            exact head_ne_of_cons d 'n' _ hd
      rw [he, show esc1 '\\' = ['\\', '\\'] from by decide]
      show pyReplacePair 'n' '\n' ('\\' :: '\\' :: v.flatMap escChar) =
        ['\\', '\\'] ++ v.flatMap esc1
      rw [pyReplacePair_bsbs 'n' '\n' _ (by decide) hhead, ih hbn']
      rfl
    · subst h
      rw [he, show esc1 '"' = ['\\', '"'] from by decide]
      show pyReplacePair 'n' '\n' ('\\' :: '"' :: v.flatMap escChar) =
        ['\\', '"'] ++ v.flatMap esc1
      rw [pyReplacePair_esc_other 'n' '\n' '"' _ (by decide) (by decide), ih hbn']
      rfl
    · subst h
      rw [he, show esc1 '$' = ['\\', '$'] from by decide]
      show pyReplacePair 'n' '\n' ('\\' :: '$' :: v.flatMap escChar) =
        ['\\', '$'] ++ v.flatMap esc1
      rw [pyReplacePair_esc_other 'n' '\n' '$' _ (by decide) (by decide), ih hbn']
      rfl
    · rw [h]
      rw [show escChar backtick = ['\\', backtick] from by decide,
        show esc1 backtick = ['\\', backtick] from by decide]
      show pyReplacePair 'n' '\n' ('\\' :: backtick :: v.flatMap escChar) =
        ['\\', backtick] ++ v.flatMap esc1
      rw [pyReplacePair_esc_other 'n' '\n' backtick _ (by decide) (by decide), ih hbn']
      rfl
    · subst h
      rw [he, show esc1 '\n' = ['\n'] from by decide]
      show pyReplacePair 'n' '\n' ('\\' :: 'n' :: v.flatMap escChar) =
        ['\n'] ++ v.flatMap esc1
      rw [pyReplacePair_escape, ih hbn']
      rfl
    · have hesc1 : esc1 c = [c] := by
        unfold esc1
        rw [if_neg h5]
        exact he
      rw [he, hesc1]
      show pyReplacePair 'n' '\n' (c :: v.flatMap escChar) = [c] ++ v.flatMap esc1
      rw [pyReplacePair_cons_of_ne 'n' '\n' c _ h1, ih hbn']
      rfl

theorem esc1_plain (c : Char) (h1 : c ≠ '\\') (h2 : c ≠ '"') (h3 : c ≠ '$')
    (h4 : c ≠ backtick) (h5 : c ≠ '\n') : esc1 c = [c] := by
  unfold esc1 escChar
  rw [if_neg h5, if_neg h1, if_neg h2, if_neg h3, if_neg h4, if_neg h5]

theorem esc2_plain (c : Char) (h1 : c ≠ '\\') (h2 : c ≠ '"') (h3 : c ≠ '$')
    (h4 : c ≠ backtick) (h5 : c ≠ '\n') : esc2 c = [c] := by
  unfold esc2
  rw [if_neg h4]
  exact esc1_plain c h1 h2 h3 h4 h5

theorem esc3_plain (c : Char) (h1 : c ≠ '\\') (h2 : c ≠ '"') (h3 : c ≠ '$')
    (h4 : c ≠ backtick) (h5 : c ≠ '\n') : esc3 c = [c] := by
  unfold esc3
  rw [if_neg h3]
  exact esc2_plain c h1 h2 h3 h4 h5

theorem esc4_plain (c : Char) (h1 : c ≠ '\\') (h2 : c ≠ '"') (h3 : c ≠ '$')
    (h4 : c ≠ backtick) (h5 : c ≠ '\n') : esc4 c = [c] := by
  unfold esc4
  rw [if_neg h2]
  exact esc3_plain c h1 h2 h3 h4 h5

theorem stage2_unescape_backtick (v : List Char) :
    pyReplacePair backtick backtick (v.flatMap esc1) = v.flatMap esc2 := by
  apply pyReplacePair_flatMap backtick esc1 esc2 (by decide)
  · intro c
    rcases escChar_cases c with ⟨h, -⟩ | ⟨h, -⟩ | ⟨h, -⟩ | ⟨h, -⟩ | ⟨h, -⟩ |
      ⟨h1, h2, h3, h4, h5, -⟩
    · subst h
      decide
    · subst h
      decide
    · subst h
      decide
    · rw [h]
      decide
    · subst h
      decide
    · rw [esc1_plain c h1 h2 h3 h4 h5]
      exact head_ne_of_cons c backtick _ h4
  · intro c
    rcases escChar_cases c with ⟨h, -⟩ | ⟨h, -⟩ | ⟨h, -⟩ | ⟨h, -⟩ | ⟨h, -⟩ |
      ⟨h1, h2, h3, h4, h5, -⟩
    · subst h
      exact Or.inr ⟨by decide, Or.inl ⟨'\\', by decide, by decide⟩⟩
    · subst h
      exact Or.inr ⟨by decide, Or.inl ⟨'"', by decide, by decide⟩⟩
    · subst h
      exact Or.inr ⟨by decide, Or.inl ⟨'$', by decide, by decide⟩⟩
    · rw [h]
      exact Or.inl ⟨by decide, by decide⟩
    · subst h
      exact Or.inr ⟨by decide, Or.inr ⟨'\n', by decide, by decide⟩⟩
    · rw [esc1_plain c h1 h2 h3 h4 h5, esc2_plain c h1 h2 h3 h4 h5]
      exact Or.inr ⟨rfl, Or.inr ⟨c, rfl, h1⟩⟩

theorem stage3_unescape_dollar (v : List Char) :
    pyReplacePair '$' '$' (v.flatMap esc2) = v.flatMap esc3 := by
  apply pyReplacePair_flatMap '$' esc2 esc3 (by decide)
  · intro c
    rcases escChar_cases c with ⟨h, -⟩ | ⟨h, -⟩ | ⟨h, -⟩ | ⟨h, -⟩ | ⟨h, -⟩ |
      ⟨h1, h2, h3, h4, h5, -⟩
    · subst h
      decide
    · subst h
      decide
    · subst h
      decide
    · rw [h]
      decide
    · subst h
      decide
    · rw [esc2_plain c h1 h2 h3 h4 h5]
      exact head_ne_of_cons c '$' _ h3
  · intro c
    rcases escChar_cases c with ⟨h, -⟩ | ⟨h, -⟩ | ⟨h, -⟩ | ⟨h, -⟩ | ⟨h, -⟩ |
      ⟨h1, h2, h3, h4, h5, -⟩
    · subst h
      exact Or.inr ⟨by decide, Or.inl ⟨'\\', by decide, by decide⟩⟩
    · subst h
      exact Or.inr ⟨by decide, Or.inl ⟨'"', by decide, by decide⟩⟩
    · subst h
      exact Or.inl ⟨by decide, by decide⟩
    · rw [h]
      exact Or.inr ⟨by decide, Or.inr ⟨backtick, by decide, by decide⟩⟩
    · subst h
      exact Or.inr ⟨by decide, Or.inr ⟨'\n', by decide, by decide⟩⟩
    · rw [esc2_plain c h1 h2 h3 h4 h5, esc3_plain c h1 h2 h3 h4 h5]
      exact Or.inr ⟨rfl, Or.inr ⟨c, rfl, h1⟩⟩

theorem stage4_unescape_dquote (v : List Char) :
    pyReplacePair '"' '"' (v.flatMap esc3) = v.flatMap esc4 := by
  apply pyReplacePair_flatMap '"' esc3 esc4 (by decide)
  · intro c
    rcases escChar_cases c with ⟨h, -⟩ | ⟨h, -⟩ | ⟨h, -⟩ | ⟨h, -⟩ | ⟨h, -⟩ |
      ⟨h1, h2, h3, h4, h5, -⟩
    · subst h
      decide
    · subst h
      decide
    · subst h
      decide
    · rw [h]
      decide
    · subst h
      decide
    · rw [esc3_plain c h1 h2 h3 h4 h5]
      exact head_ne_of_cons c '"' _ h2
  · intro c
    rcases escChar_cases c with ⟨h, -⟩ | ⟨h, -⟩ | ⟨h, -⟩ | ⟨h, -⟩ | ⟨h, -⟩ |
      ⟨h1, h2, h3, h4, h5, -⟩
    · subst h
      exact Or.inr ⟨by decide, Or.inl ⟨'\\', by decide, by decide⟩⟩
    · subst h
      exact Or.inl ⟨by decide, by decide⟩
    · subst h
      exact Or.inr ⟨by decide, Or.inr ⟨'$', by decide, by decide⟩⟩
    · rw [h]
      exact Or.inr ⟨by decide, Or.inr ⟨backtick, by decide, by decide⟩⟩
    · subst h
      exact Or.inr ⟨by decide, Or.inr ⟨'\n', by decide, by decide⟩⟩
    · rw [esc3_plain c h1 h2 h3 h4 h5, esc4_plain c h1 h2 h3 h4 h5]
      exact Or.inr ⟨rfl, Or.inr ⟨c, rfl, h1⟩⟩

theorem flatMap_singleton_id (v : List Char) : (v.flatMap fun c => [c]) = v := by
  induction v with
  | nil => rfl
  | cons c v ih =>
    rw [List.flatMap_cons, ih]
    rfl

theorem stage5_unescape_backslash (v : List Char) :
    pyReplacePair '\\' '\\' (v.flatMap esc4) = v := by
  have h := pyReplacePair_flatMap_backslash esc4 (fun c => [c]) ?_ v
  · rw [h, flatMap_singleton_id]
  · intro c
    rcases escChar_cases c with ⟨h, -⟩ | ⟨h, -⟩ | ⟨h, -⟩ | ⟨h, -⟩ | ⟨h, -⟩ |
      ⟨h1, h2, h3, h4, h5, -⟩
    · subst h
      exact Or.inl ⟨by decide, by decide⟩
    · subst h
      exact Or.inr ⟨by decide, '"', by decide, by decide⟩
    · subst h
      exact Or.inr ⟨by decide, '$', by decide, by decide⟩
    · rw [h]
      exact Or.inr ⟨by decide, backtick, by decide, by decide⟩
    · subst h
      exact Or.inr ⟨by decide, '\n', by decide, by decide⟩
    · rw [esc4_plain c h1 h2 h3 h4 h5]
      exact Or.inr ⟨rfl, c, rfl, h1⟩

/-- Round-trip of the escape and unescape chains of config.py at the
value level: for every value without the two-character substring
backslash-`n`, unescaping the quoted form restores the value.  (For
values containing backslash-`n` the `\n`-to-newline replace corrupts
the escaped backslash, as `env_roundtrip_failing_input` shows.) -/
theorem env_unescape_quote (v : List Char) (hbn : hasBackslashN v = false) :
    env_unescape (env_quote v) = v := by
  rw [env_quote_eq_flatMap]
  unfold env_unescape
  rw [stage1_unescape_n v hbn, stage2_unescape_backtick v,
    stage3_unescape_dollar v, stage4_unescape_dquote v,
    stage5_unescape_backslash v]

/-- Witness for the value-level round-trip at a concrete value exercising
every escape class. -/
theorem env_unescape_quote_witness :
    hasBackslashN ("a$b\"c\\d\ne".toList) = false ∧
    env_unescape (env_quote ("a$b\"c\\d\ne".toList)) = "a$b\"c\\d\ne".toList :=
  ⟨by decide, env_unescape_quote ("a$b\"c\\d\ne".toList) (by decide)⟩

/-- C1: the claimed round-trip `parse(write(quote(v))) = v` fails on the
code at the value backslash-`n`: `save_bot_env` writes `KEY="\\n"` and
`parse_env_file` reads back backslash-newline, because the `\n` unescape
runs before the `\\` unescape and consumes the second backslash of the
escaped backslash. -/
theorem env_roundtrip_failing_input :
    parse_env_file (save_bot_env [("KEY".toList, ['\\', 'n'])]) =
      [("KEY".toList, ['\\', '\n'])] ∧
    (['\\', '\n'] : List Char) ≠ ['\\', 'n'] :=
  ⟨by decide, by decide⟩

end Claudio
